import Mathlib

/-!
Verification development for the `fje` JSON visualization tool: tree model,
builder, visitors (grid-width analysis, first/last analysis) and the star-style
renderer, embedded from `src/fje/node.py` and `src/fje/style/star_style.py`.
-/

namespace FJE

/-- A parsed JSON value, as handed to `JSONNodeFactory` by the external JSON
parser. Scalars (numbers, booleans, strings) are already normalized to their
textual form (`str(obj)` in the source), since no type distinction survives
into the tree. -/
inductive JSONValue : Type where
  | null : JSONValue
  | scalar : String → JSONValue
  | arr : List JSONValue → JSONValue
  | obj : List (String × JSONValue) → JSONValue
deriving Repr

/-- The node hierarchy of `node.py`: `JSONComposite name level id children` and
`JSONLeaf name level id value` (the `id` field records construction order). -/
inductive JSONNode : Type where
  | composite : String → Nat → Nat → List JSONNode → JSONNode
  | leaf : String → Nat → Nat → Option String → JSONNode
deriving Repr

namespace JSONNode

/-- `JSONNode.get_name` -/
def get_name : JSONNode → String
  | .composite n _ _ _ => n
  | .leaf n _ _ _ => n

/-- `JSONNode.get_level` -/
def get_level : JSONNode → Nat
  | .composite _ l _ _ => l
  | .leaf _ l _ _ => l

/-- `JSONNode.get_id` -/
def get_id : JSONNode → Nat
  | .composite _ _ i _ => i
  | .leaf _ _ i _ => i

/-- `is_leaf`: `False` on `JSONComposite`, `True` on `JSONLeaf`. -/
def is_leaf : JSONNode → Bool
  | .composite _ _ _ _ => false
  | .leaf _ _ _ _ => true

/-- `JSONNode.is_root`: `self._level == 0`. -/
def is_root (n : JSONNode) : Bool :=
  n.get_level == 0

/-- `JSONLeaf.get_value`; a composite carries no value (`none`). -/
def get_value : JSONNode → Option String
  | .composite _ _ _ _ => none
  | .leaf _ _ _ v => v

/-- `JSONComposite.get_children`; a leaf has no children. -/
def get_children : JSONNode → List JSONNode
  | .composite _ _ _ cs => cs
  | .leaf _ _ _ _ => []

end JSONNode

/-!
### Tree builder (`JSONNodeFactory`)

The Python source assigns ids from a global counter incremented in
`JSONNode.__init__`; here the counter is threaded explicitly: each function
takes the current counter value and returns the next free one. A composite
receives its id before its children are built (`JSONComposite(name, level)` is
constructed first, then children are created and appended in order).
-/

mutual

/-- `JSONNodeFactory._create(name, level, obj)`: dispatch on the shape of the
parsed value. -/
def createNode (name : String) (level : Nat) (v : JSONValue) (ctr : Nat) :
    JSONNode × Nat :=
  match v with
  | .arr xs =>
      let r := createArr (level + 1) 0 xs (ctr + 1)
      (.composite name level ctr r.1, r.2)
  | .obj kvs =>
      let r := createObj (level + 1) kvs (ctr + 1)
      (.composite name level ctr r.1, r.2)
  | .scalar s => (.leaf name level ctr (some s), ctr + 1)
  | .null => (.leaf name level ctr none, ctr + 1)
termination_by structural v

/-- `JSONNodeFactory._create_composite_from_list`: children built with names
`Array[idx]` in index order, at `level + 1` (the caller already passed
`level + 1` as `lvl`). -/
def createArr (lvl : Nat) (idx : Nat) (xs : List JSONValue) (ctr : Nat) :
    List JSONNode × Nat :=
  match xs with
  | [] => ([], ctr)
  | x :: rest =>
      let c := createNode ("Array[" ++ toString idx ++ "]") lvl x ctr
      let cs := createArr lvl (idx + 1) rest c.2
      (c.1 :: cs.1, cs.2)
termination_by structural xs

/-- `JSONNodeFactory._create_composite_from_dict`: children built with the keys
as names, in the mapping's iteration order, at `level + 1`. -/
def createObj (lvl : Nat) (kvs : List (String × JSONValue)) (ctr : Nat) :
    List JSONNode × Nat :=
  match kvs with
  | [] => ([], ctr)
  | (k, v) :: rest =>
      let c := createNode k lvl v ctr
      let cs := createObj lvl rest c.2
      (c.1 :: cs.1, cs.2)
termination_by structural kvs

end

/-- Error kinds surfaced through `FJEException` (§7 of the spec). Only the
invalid-root kind is raised by the code modelled here. -/
inductive FJEError : Type where
  | invalidRoot : FJEError
deriving Repr, DecidableEq

/-- `JSONNodeFactory.__init__` root check: the parsed value must be a `dict`
or a `list`, otherwise `FJEException` is raised before any node is built. -/
def factoryInit (v : JSONValue) : Except FJEError JSONValue :=
  match v with
  | .arr xs => .ok (.arr xs)
  | .obj kvs => .ok (.obj kvs)
  | _ => .error .invalidRoot

/-- `JSONNodeFactory(filepath).create()`: validate the root, then
`_create('', 0, json_data)`. The id counter starts at `ctr`. -/
def factoryCreate (v : JSONValue) (ctr : Nat) : Except FJEError JSONNode :=
  (factoryInit v).map (fun d => (createNode "" 0 d ctr).1)

/-!
### Traversal engine

`accept` is the double dispatch of `node.py`: a composite first calls
`visitor.visit_composite(self)` and then `child.accept(visitor)` on each child
in stored order; a leaf calls `visitor.visit_leaf(self)`. A stateful Python
visitor is a record of two state-transition functions together with a state
threaded through the traversal.
-/

/-- A `JSONVisitor`: its two methods, as transitions on the visitor's own
mutable state `σ`. -/
structure Visitor (σ : Type) where
  visit_composite : σ → JSONNode → σ
  visit_leaf : σ → JSONNode → σ

mutual

/-- `JSONComposite.accept` / `JSONLeaf.accept`, with the visitor's state
threaded explicitly. -/
def accept {σ : Type} (vis : Visitor σ) (n : JSONNode) (s : σ) : σ :=
  match n with
  | .composite name lvl i cs =>
      acceptList vis cs (vis.visit_composite s (.composite name lvl i cs))
  | .leaf name lvl i v => vis.visit_leaf s (.leaf name lvl i v)
termination_by structural n

/-- The `for child in self._children: child.accept(visitor)` loop. -/
def acceptList {σ : Type} (vis : Visitor σ) (ns : List JSONNode) (s : σ) : σ :=
  match ns with
  | [] => s
  | c :: rest => acceptList vis rest (accept vis c s)
termination_by structural ns

end

mutual

/-- The pre-order, depth-first visit sequence of a tree: the node itself,
then the traversals of its children in stored order. This is the reference
ordering (§4.2 of the spec) against which `accept` is checked. -/
def preorder (n : JSONNode) : List JSONNode :=
  match n with
  | .composite name lvl i cs => .composite name lvl i cs :: preorderList cs
  | .leaf name lvl i v => [.leaf name lvl i v]
termination_by structural n

/-- Concatenation of the pre-order visit sequences of a list of siblings. -/
def preorderList (ns : List JSONNode) : List JSONNode :=
  match ns with
  | [] => []
  | c :: rest => preorder c ++ preorderList rest
termination_by structural ns

end

/-- One visitation step: the dispatch `accept` performs on the node's kind. -/
def visitStep {σ : Type} (vis : Visitor σ) (s : σ) (n : JSONNode) : σ :=
  match n with
  | .composite _ _ _ _ => vis.visit_composite s n
  | .leaf _ _ _ _ => vis.visit_leaf s n

/-!
### Width analysis pass (`GridWidthVisitor`)
-/

/-- `GridWidthVisitor.update_grid_width`, acting on the accumulated
`grid_width`. `(node.get_level() - 1) * 3 + 2` is computed over the integers
(Python ints), then clamped at 0 by `max`. -/
def update_grid_width (gw : Nat) (node : JSONNode) : Nat :=
  let prefix_length : Int := max ((node.get_level - 1 : Int) * 3 + 2) 0
  let name_length := node.get_name.length + 2
  let name_length :=
    match node.is_leaf, node.get_value with
    | true, some v => name_length + v.length + 2
    | _, _ => name_length
  let name_length := name_length + 4
  max gw (prefix_length.toNat + name_length + 2)

/-- The `GridWidthVisitor`: both `visit_composite` and `visit_leaf` call
`update_grid_width`. -/
def gridWidthVisitor : Visitor Nat :=
  ⟨update_grid_width, update_grid_width⟩

/-- `GridWidthVisitor()` followed by `root.accept(...)`, read out through
`.grid_width`; the state is initialized to 16. -/
def runGridWidth (root : JSONNode) : Nat :=
  accept gridWidthVisitor root 16

/-!
### First/last analysis pass (`FirstLastVisitor`)
-/

/-- The mutable state of `FirstLastVisitor`; ids not yet recorded are `none`
(Python `None`). -/
structure FLState where
  first_visited : Bool
  first_id : Option Nat
  last_id : Option Nat
deriving Repr, DecidableEq

/-- `FirstLastVisitor.__init__`. -/
def flInit : FLState :=
  ⟨false, none, none⟩

/-- The shared body of `visit_composite` and `visit_leaf`: record the first
id once, and overwrite `last_id` on every visit. -/
def flUpdate (st : FLState) (n : JSONNode) : FLState :=
  let st :=
    if !st.first_visited then
      { st with first_visited := true, first_id := some n.get_id }
    else st
  { st with last_id := some n.get_id }

/-- The `FirstLastVisitor` as a visitor record. -/
def flVisitor : Visitor FLState :=
  ⟨flUpdate, flUpdate⟩

/-- `FirstLastVisitor()` followed by `root.accept(...)`. -/
def runFirstLast (root : JSONNode) : FLState :=
  accept flVisitor root flInit

/-- `FirstLastVisitor.is_first`: `node.get_id() == self.first_id` (an integer
never equals Python `None`). -/
def is_first (st : FLState) (n : JSONNode) : Bool :=
  some n.get_id == st.first_id

/-- `FirstLastVisitor.is_last`: `node.get_id() == self.last_id`. -/
def is_last (st : FLState) (n : JSONNode) : Bool :=
  some n.get_id == st.last_id

/-!
### Star-style renderer (`star_style.py`)
-/

/-- An icon family: a pair of glyph strings. Modelled from the spec (§6,
"a pair of single-glyph strings (composite icon, leaf icon)") and from the
field accesses `icon_family.composite_icon` / `icon_family.leaf_icon` in
`star_style.py`; the `icon` module itself is not part of the verified core. -/
structure IconFamily where
  composite_icon : String
  leaf_icon : String

/-- Python string repetition `s * n`. -/
def strMul (s : String) (n : Nat) : String :=
  match n with
  | 0 => ""
  | m + 1 => s ++ strMul s m

/-- Python `str.ljust(width, fillchar)`: pad on the right up to `width`
characters (a no-op when the string is already at least that long). -/
def ljust (s : String) (width : Nat) (c : Char) : String :=
  s ++ String.mk (List.replicate (width - s.length) c)

/-- `RenderVisitor.render_node`: the line printed for `node`, or `none` for
the root (which returns before producing output). -/
def render_node (grid_width : Nat) (fl : FLState) (icon_family : IconFamily)
    (node : JSONNode) : Option String :=
  if node.is_root then none else
  let result := ""
  -- first layer
  let result := result ++
    (if is_first fl node then "──"
     else if is_last fl node then "──"
     else if node.get_level == 1 then "├─"
     else "│ ")
  -- straight lines
  let result := result ++
    (if node.get_level > 2 then
      (if is_last fl node then strMul "─┴─" (node.get_level - 2)
       else strMul " │ " (node.get_level - 2))
     else "")
  -- header
  let result := result ++
    (if is_last fl node then "─┴─"
     else if node.get_level > 1 then " ├─"
     else "")
  -- icon
  let result := result ++
    (if node.is_leaf then icon_family.leaf_icon
     else icon_family.composite_icon)
  -- name surrounded by stars
  let result := result ++ "* " ++ node.get_name ++ " *"
  -- value
  let result := result ++
    (match node.is_leaf, node.get_value with
     | true, some v => ": " ++ v
     | _, _ => "")
  -- padding
  let result := ljust (result ++ " ") (grid_width - 2) '─'
  -- last layer
  let result := result ++
    (if is_first fl node then "──"
     else if is_last fl node then "──"
     else "─┤")
  some result

/-- One renderer visit: append the printed line, if any, to the output so
far. -/
def renderStep (grid_width : Nat) (fl : FLState) (icon_family : IconFamily)
    (s : List String) (n : JSONNode) : List String :=
  match render_node grid_width fl icon_family n with
  | some line => s ++ [line]
  | none => s

/-- The `RenderVisitor` as a state-threading visitor: the lines printed so
far, in print order (the root contributes nothing). -/
def renderVisitor (grid_width : Nat) (fl : FLState) (icon_family : IconFamily) :
    Visitor (List String) :=
  ⟨renderStep grid_width fl icon_family, renderStep grid_width fl icon_family⟩

/-- `StarStyledJSONNode(root, icon_family).render()`: run the width pass and
the first/last pass over the tree, then render every node in traversal order.
Returns the printed lines. -/
def starRender (root : JSONNode) (icon_family : IconFamily) : List String :=
  accept (renderVisitor (runGridWidth root) (runFirstLast root) icon_family)
    root []

/-- The whole pipeline on a parsed value: build the tree (rejecting invalid
roots), then render. On error, no line is produced. -/
def starPipeline (v : JSONValue) (icon_family : IconFamily) :
    Except FJEError (List String) :=
  (factoryCreate v 0).map (fun t => starRender t icon_family)

/-- The `default` icon family of `style/__init__.py`: `IconFamily(' ', ' ')`. -/
def defaultIcons : IconFamily :=
  ⟨" ", " "⟩

/-!
## Lemmas

### Traversal: `accept` is the fold of the pre-order visit sequence
-/

mutual

theorem accept_eq_foldl {σ : Type} (vis : Visitor σ) (n : JSONNode) (s : σ) :
    accept vis n s = (preorder n).foldl (visitStep vis) s := by
  cases n with
  | composite name lvl i cs =>
      simp only [accept, preorder, List.foldl_cons]
      rw [acceptList_eq_foldl]
      rfl
  | leaf name lvl i v =>
      simp only [accept, preorder, List.foldl_cons, List.foldl_nil]
      rfl
termination_by structural n

theorem acceptList_eq_foldl {σ : Type} (vis : Visitor σ) (ns : List JSONNode)
    (s : σ) : acceptList vis ns s = (preorderList ns).foldl (visitStep vis) s := by
  cases ns with
  | nil => simp [acceptList, preorderList]
  | cons c rest =>
      simp only [acceptList, preorderList, List.foldl_append]
      rw [accept_eq_foldl, acceptList_eq_foldl]
termination_by structural ns

end

theorem preorder_composite (name : String) (lvl i : Nat) (cs : List JSONNode) :
    preorder (.composite name lvl i cs) = .composite name lvl i cs :: preorderList cs := by
  simp [preorder]

theorem preorder_leaf (name : String) (lvl i : Nat) (v : Option String) :
    preorder (.leaf name lvl i v) = [.leaf name lvl i v] := by
  simp [preorder]

theorem preorderList_cons (c : JSONNode) (rest : List JSONNode) :
    preorderList (c :: rest) = preorder c ++ preorderList rest := by
  simp [preorderList]

/-- Every tree's visit sequence starts with the tree's own root node. -/
theorem preorder_head (n : JSONNode) :
    ∃ rest, preorder n = n :: rest := by
  cases n with
  | composite name lvl i cs => exact ⟨preorderList cs, by simp [preorder]⟩
  | leaf name lvl i v => exact ⟨[], by simp [preorder]⟩

/-!
### Ids: construction order coincides with traversal order
-/

mutual

/-- A tree built with the counter at `ctr` carries exactly the ids
`ctr, ctr + 1, …` along its pre-order visit sequence, and returns the counter
advanced by the number of nodes built. -/
theorem createNode_ids (name : String) (lvl : Nat) (v : JSONValue) (ctr : Nat) :
    (preorder (createNode name lvl v ctr).1).map JSONNode.get_id =
      List.range' ctr (preorder (createNode name lvl v ctr).1).length ∧
    (createNode name lvl v ctr).2 =
      ctr + (preorder (createNode name lvl v ctr).1).length := by
  cases v with
  | null => simp [createNode, preorder, JSONNode.get_id]
  | scalar s => simp [createNode, preorder, JSONNode.get_id]
  | arr xs =>
      have h := createArr_ids (lvl + 1) 0 xs (ctr + 1)
      simp only [createNode, preorder, List.map_cons, JSONNode.get_id,
        List.length_cons] at *
      refine ⟨?_, ?_⟩
      · rw [List.range'_succ, h.1]
      · rw [h.2]; omega
  | obj kvs =>
      have h := createObj_ids (lvl + 1) kvs (ctr + 1)
      simp only [createNode, preorder, List.map_cons, JSONNode.get_id,
        List.length_cons] at *
      refine ⟨?_, ?_⟩
      · rw [List.range'_succ, h.1]
      · rw [h.2]; omega
termination_by structural v

theorem createArr_ids (lvl idx : Nat) (xs : List JSONValue) (ctr : Nat) :
    (preorderList (createArr lvl idx xs ctr).1).map JSONNode.get_id =
      List.range' ctr (preorderList (createArr lvl idx xs ctr).1).length ∧
    (createArr lvl idx xs ctr).2 =
      ctr + (preorderList (createArr lvl idx xs ctr).1).length := by
  cases xs with
  | nil => simp [createArr, preorderList]
  | cons x rest =>
      have h1 := createNode_ids ("Array[" ++ toString idx ++ "]") lvl x ctr
      have h2 := createArr_ids lvl (idx + 1) rest
        (createNode ("Array[" ++ toString idx ++ "]") lvl x ctr).2
      simp only [createArr, preorderList, List.map_append, List.length_append]
      refine ⟨?_, ?_⟩
      · rw [h1.1, h2.1, h1.2, List.range'_append_1, Nat.add_comm]
      · rw [h2.2, h1.2]; omega
termination_by structural xs

theorem createObj_ids (lvl : Nat) (kvs : List (String × JSONValue)) (ctr : Nat) :
    (preorderList (createObj lvl kvs ctr).1).map JSONNode.get_id =
      List.range' ctr (preorderList (createObj lvl kvs ctr).1).length ∧
    (createObj lvl kvs ctr).2 =
      ctr + (preorderList (createObj lvl kvs ctr).1).length := by
  cases kvs with
  | nil => simp [createObj, preorderList]
  | cons kv rest =>
      have h1 := createNode_ids kv.1 lvl kv.2 ctr
      have h2 := createObj_ids lvl rest (createNode kv.1 lvl kv.2 ctr).2
      simp only [createObj, preorderList, List.map_append, List.length_append]
      refine ⟨?_, ?_⟩
      · rw [h1.1, h2.1, h1.2, List.range'_append_1, Nat.add_comm]
      · rw [h2.2, h1.2]; omega
termination_by structural kvs

end

/-- The root of a freshly built tree carries the id the counter started at. -/
theorem createNode_root_id (name : String) (lvl : Nat) (v : JSONValue)
    (ctr : Nat) : (createNode name lvl v ctr).1.get_id = ctr := by
  cases v <;> simp [createNode, JSONNode.get_id]

/-- Ids are strictly increasing along the pre-order visit sequence. -/
theorem createNode_ids_pairwise (name : String) (lvl : Nat) (v : JSONValue)
    (ctr : Nat) :
    ((preorder (createNode name lvl v ctr).1).map JSONNode.get_id).Pairwise (· < ·) := by
  rw [(createNode_ids name lvl v ctr).1]
  exact List.pairwise_lt_range' ctr _

/-!
### Levels
-/

mutual

/-- Local level invariant: every child of a composite sits one level below it,
recursively. -/
def levelsOK (n : JSONNode) : Bool :=
  match n with
  | .composite _ l _ cs => levelsOKList (l + 1) cs
  | .leaf _ _ _ _ => true
termination_by structural n

/-- `levelsOKList l ns`: every node of `ns` has level `l` and satisfies
`levelsOK`. -/
def levelsOKList (l : Nat) (ns : List JSONNode) : Bool :=
  match ns with
  | [] => true
  | c :: rest => (c.get_level == l) && levelsOK c && levelsOKList l rest
termination_by structural ns

end

mutual

theorem createNode_levelsOK (name : String) (lvl : Nat) (v : JSONValue)
    (ctr : Nat) :
    (createNode name lvl v ctr).1.get_level = lvl ∧
      levelsOK (createNode name lvl v ctr).1 = true := by
  cases v with
  | null => simp [createNode, JSONNode.get_level, levelsOK]
  | scalar s => simp [createNode, JSONNode.get_level, levelsOK]
  | arr xs =>
      have h := createArr_levelsOK (lvl + 1) 0 xs (ctr + 1)
      simp [createNode, JSONNode.get_level, levelsOK, h]
  | obj kvs =>
      have h := createObj_levelsOK (lvl + 1) kvs (ctr + 1)
      simp [createNode, JSONNode.get_level, levelsOK, h]
termination_by structural v

theorem createArr_levelsOK (lvl idx : Nat) (xs : List JSONValue) (ctr : Nat) :
    levelsOKList lvl (createArr lvl idx xs ctr).1 = true := by
  cases xs with
  | nil => simp [createArr, levelsOKList]
  | cons x rest =>
      have h1 := createNode_levelsOK ("Array[" ++ toString idx ++ "]") lvl x ctr
      have h2 := createArr_levelsOK lvl (idx + 1) rest
        (createNode ("Array[" ++ toString idx ++ "]") lvl x ctr).2
      simp only [createArr, levelsOKList, Bool.and_eq_true, beq_iff_eq]
      exact ⟨⟨h1.1, h1.2⟩, h2⟩
termination_by structural xs

theorem createObj_levelsOK (lvl : Nat) (kvs : List (String × JSONValue))
    (ctr : Nat) : levelsOKList lvl (createObj lvl kvs ctr).1 = true := by
  cases kvs with
  | nil => simp [createObj, levelsOKList]
  | cons kv rest =>
      have h1 := createNode_levelsOK kv.1 lvl kv.2 ctr
      have h2 := createObj_levelsOK lvl rest (createNode kv.1 lvl kv.2 ctr).2
      simp only [createObj, levelsOKList, Bool.and_eq_true, beq_iff_eq]
      exact ⟨⟨h1.1, h1.2⟩, h2⟩
termination_by structural kvs

end

mutual

/-- Under the level invariant, every node of the visit sequence sits at or
below (numerically at or above) the tree's own level. -/
theorem levelsOK_preorder_ge (n : JSONNode) (h : levelsOK n = true) :
    ∀ m ∈ preorder n, n.get_level ≤ m.get_level := by
  cases n with
  | composite name lvl i cs =>
      intro m hm
      rw [preorder_composite] at hm
      rcases List.mem_cons.mp hm with h1 | h1
      · subst h1; exact Nat.le_refl _
      · have := levelsOKList_preorder_ge (lvl + 1) cs (by simpa [levelsOK] using h) m h1
        simp only [JSONNode.get_level] at *
        omega
  | leaf name lvl i v =>
      intro m hm
      rw [preorder_leaf] at hm
      simp only [List.mem_singleton] at hm
      subst hm; exact Nat.le_refl _
termination_by structural n

theorem levelsOKList_preorder_ge (l : Nat) (ns : List JSONNode)
    (h : levelsOKList l ns = true) :
    ∀ m ∈ preorderList ns, l ≤ m.get_level := by
  cases ns with
  | nil => intro m hm; rw [preorderList] at hm; simp at hm
  | cons c rest =>
      intro m hm
      rw [preorderList_cons] at hm
      simp only [levelsOKList, Bool.and_eq_true, beq_iff_eq] at h
      rcases List.mem_append.mp hm with h1 | h1
      · have := levelsOK_preorder_ge c h.1.2 m h1
        omega
      · exact levelsOKList_preorder_ge l rest h.2 m h1
termination_by structural ns

end

/-- Membership form of `levelsOKList`. -/
theorem levelsOKList_mem (l : Nat) (ns : List JSONNode)
    (h : levelsOKList l ns = true) :
    ∀ c ∈ ns, c.get_level = l ∧ levelsOK c = true := by
  induction ns with
  | nil => intro c hc; simp at hc
  | cons c0 rest ih =>
      intro c hc
      simp only [levelsOKList, Bool.and_eq_true, beq_iff_eq] at h
      rcases List.mem_cons.mp hc with h1 | h1
      · subst h1; exact h.1
      · exact ih h.2 c h1

mutual

/-- Under the level invariant, each node's children in the visit sequence sit
exactly one level below it. -/
theorem levelsOK_children (n : JSONNode) (h : levelsOK n = true) :
    ∀ m ∈ preorder n, ∀ c ∈ m.get_children, c.get_level = m.get_level + 1 := by
  cases n with
  | composite name lvl i cs =>
      intro m hm c hc
      rw [preorder_composite] at hm
      simp only [levelsOK] at h
      rcases List.mem_cons.mp hm with h1 | h1
      · subst h1
        simp only [JSONNode.get_children, JSONNode.get_level] at *
        exact (levelsOKList_mem (lvl + 1) cs h c hc).1
      · exact levelsOKList_children (lvl + 1) cs h m h1 c hc
  | leaf name lvl i v =>
      intro m hm c hc
      rw [preorder_leaf] at hm
      simp only [List.mem_singleton] at hm
      subst hm
      simp [JSONNode.get_children] at hc
termination_by structural n

theorem levelsOKList_children (l : Nat) (ns : List JSONNode)
    (h : levelsOKList l ns = true) :
    ∀ m ∈ preorderList ns, ∀ c ∈ m.get_children, c.get_level = m.get_level + 1 := by
  cases ns with
  | nil => intro m hm; rw [preorderList] at hm; simp at hm
  | cons c0 rest =>
      intro m hm c hc
      rw [preorderList_cons] at hm
      simp only [levelsOKList, Bool.and_eq_true, beq_iff_eq] at h
      rcases List.mem_append.mp hm with h1 | h1
      · exact levelsOK_children c0 h.1.2 m h1 c hc
      · exact levelsOKList_children l rest h.2 m h1 c hc
termination_by structural ns

end

/-!
### First/last analysis: the recorded ids after a traversal
-/

theorem visitStep_flVisitor (s : FLState) (n : JSONNode) :
    visitStep flVisitor s n = flUpdate s n := by
  cases n <;> rfl

theorem visitStep_flVisitor_eq : visitStep flVisitor = flUpdate :=
  funext fun s => funext fun n => visitStep_flVisitor s n

theorem flUpdate_first_visited (st : FLState) (n : JSONNode) :
    (flUpdate st n).first_visited = true := by
  simp only [flUpdate]
  by_cases h : st.first_visited <;> simp [h]

/-- Once the first id is recorded, further visits leave it unchanged. -/
theorem foldl_flUpdate_first_of_visited (l : List JSONNode) :
    ∀ st : FLState, st.first_visited = true →
      (l.foldl flUpdate st).first_id = st.first_id := by
  induction l with
  | nil => intro st _; rfl
  | cons n rest ih =>
      intro st h
      rw [List.foldl_cons]
      rw [ih (flUpdate st n) (flUpdate_first_visited st n)]
      simp [flUpdate, h]

/-- On a fresh state, a traversal records the first visited node's id. -/
theorem foldl_flUpdate_first (n : JSONNode) (rest : List JSONNode)
    (st : FLState) (h : st.first_visited = false) :
    ((n :: rest).foldl flUpdate st).first_id = some n.get_id := by
  rw [List.foldl_cons,
    foldl_flUpdate_first_of_visited rest _ (flUpdate_first_visited st n)]
  simp [flUpdate, h]

/-- A traversal records the last visited node's id. -/
theorem foldl_flUpdate_last (l : List JSONNode) :
    ∀ st : FLState,
      (l.foldl flUpdate st).last_id =
        match l.getLast? with
        | some m => some m.get_id
        | none => st.last_id := by
  induction l with
  | nil => intro st; rfl
  | cons n rest ih =>
      intro st
      rw [List.foldl_cons, ih]
      cases rest with
      | nil => simp [flUpdate]
      | cons b bs =>
          cases h : (b :: bs).getLast? with
          | none => simp at h
          | some m => simp [List.getLast?_cons_cons, h]

/-- After the first/last pass over a tree, `first_id` is the root's id. -/
theorem runFirstLast_first_id (t : JSONNode) :
    (runFirstLast t).first_id = some t.get_id := by
  obtain ⟨rest, hrest⟩ := preorder_head t
  rw [runFirstLast, accept_eq_foldl, visitStep_flVisitor_eq, hrest]
  exact foldl_flUpdate_first t rest flInit rfl

/-- After the first/last pass over a tree, `last_id` is the id of the last
node of the pre-order visit sequence. -/
theorem runFirstLast_last_id (t : JSONNode) :
    (runFirstLast t).last_id =
      match (preorder t).getLast? with
      | some m => some m.get_id
      | none => none := by
  rw [runFirstLast, accept_eq_foldl, visitStep_flVisitor_eq]
  exact foldl_flUpdate_last (preorder t) flInit

/-!
### Width analysis: the fold computes a floored maximum
-/

/-- The per-node column-width formula as §4.3 of the spec states it:
`prefix_length = max((level - 1) * 3 + 2, 0)`; `name_length = len(name) + 2`,
plus `len(value) + 2` for a leaf with a non-null value, plus 4; the node
contributes `prefix_length + name_length + 2`. -/
def specNodeWidth (n : JSONNode) : Nat :=
  let prefix_length : Int := max ((n.get_level - 1 : Int) * 3 + 2) 0
  let name_length := n.get_name.length + 2 +
    (match n.is_leaf, n.get_value with
     | true, some v => v.length + 2
     | _, _ => 0) + 4
  prefix_length.toNat + name_length + 2

theorem update_grid_width_eq (gw : Nat) (n : JSONNode) :
    update_grid_width gw n = max gw (specNodeWidth n) := by
  cases n with
  | composite name lvl i cs =>
      simp [update_grid_width, specNodeWidth, JSONNode.is_leaf,
        JSONNode.get_value, JSONNode.get_name, JSONNode.get_level]
  | leaf name lvl i v =>
      cases v with
      | none =>
          simp [update_grid_width, specNodeWidth, JSONNode.is_leaf,
            JSONNode.get_value, JSONNode.get_name, JSONNode.get_level]
      | some s =>
          simp [update_grid_width, specNodeWidth, JSONNode.is_leaf,
            JSONNode.get_value, JSONNode.get_name, JSONNode.get_level]
          omega

theorem visitStep_gridWidthVisitor_eq :
    visitStep gridWidthVisitor = update_grid_width :=
  funext fun s => funext fun n => by cases n <;> rfl

theorem foldl_ext {α β : Type} (f g : β → α → β) (h : ∀ s a, f s a = g s a) :
    ∀ (l : List α) (s : β), l.foldl f s = l.foldl g s := by
  intro l
  induction l with
  | nil => intro s; rfl
  | cons x rest ih => intro s; rw [List.foldl_cons, List.foldl_cons, h, ih]

theorem runGridWidth_eq_foldl (t : JSONNode) :
    runGridWidth t =
      (preorder t).foldl (fun gw n => max gw (specNodeWidth n)) 16 := by
  rw [runGridWidth, accept_eq_foldl, visitStep_gridWidthVisitor_eq]
  exact foldl_ext _ _ update_grid_width_eq (preorder t) 16

/-- Folding a running maximum never drops below the initial value. -/
theorem foldl_max_init_le {α : Type} (f : α → Nat) (l : List α) :
    ∀ i : Nat, i ≤ l.foldl (fun a n => max a (f n)) i := by
  induction l with
  | nil => intro i; exact Nat.le_refl i
  | cons x rest ih =>
      intro i
      rw [List.foldl_cons]
      exact Nat.le_trans (Nat.le_max_left i (f x)) (ih _)

/-- Folding a running maximum dominates every element's contribution. -/
theorem foldl_max_mem_le {α : Type} (f : α → Nat) (l : List α) :
    ∀ i : Nat, ∀ x ∈ l, f x ≤ l.foldl (fun a n => max a (f n)) i := by
  induction l with
  | nil => intro i x hx; simp at hx
  | cons y rest ih =>
      intro i x hx
      rw [List.foldl_cons]
      rcases List.mem_cons.mp hx with h | h
      · subst h
        exact Nat.le_trans (Nat.le_max_right i (f x)) (foldl_max_init_le f rest _)
      · exact ih _ x h

/-- The running-maximum fold equals the initial value floored against the
plain maximum of the contributions. -/
theorem foldl_max_eq {α : Type} (f : α → Nat) (l : List α) :
    ∀ i : Nat,
      l.foldl (fun a n => max a (f n)) i = max i ((l.map f).foldr max 0) := by
  induction l with
  | nil => intro i; simp
  | cons x rest ih =>
      intro i
      rw [List.foldl_cons, ih, List.map_cons, List.foldr_cons]
      omega

theorem foldr_max_le {l : List Nat} {b : Nat} (h : ∀ x ∈ l, x ≤ b) :
    l.foldr max 0 ≤ b := by
  induction l with
  | nil => exact Nat.zero_le b
  | cons x rest ih =>
      rw [List.foldr_cons]
      have hx := h x (List.mem_cons_self x rest)
      have hr := ih (fun y hy => h y (List.mem_cons_of_mem x hy))
      omega

/-- The computed grid width never drops below the 16 floor. -/
theorem runGridWidth_ge_16 (t : JSONNode) : 16 ≤ runGridWidth t := by
  rw [runGridWidth_eq_foldl]
  exact foldl_max_init_le _ _ 16

/-- The computed grid width dominates every node's width contribution. -/
theorem runGridWidth_ge_node (t : JSONNode) (n : JSONNode)
    (hn : n ∈ preorder t) : specNodeWidth n ≤ runGridWidth t := by
  rw [runGridWidth_eq_foldl]
  exact foldl_max_mem_le _ _ 16 n hn

/-!
### Renderer: line lengths
-/

theorem strMul_length (s : String) (n : Nat) :
    (strMul s n).length = s.length * n := by
  induction n with
  | zero => simp [strMul]
  | succ m ih => rw [strMul, String.length_append, ih]; ring

theorem ljust_length (s : String) (w : Nat) (c : Char) :
    (ljust s w c).length = max s.length w := by
  rw [ljust, String.length_append]
  have h1 : (String.mk (List.replicate (w - s.length) c)).length
      = w - s.length := by
    rw [String.length_mk, List.length_replicate]
  rw [h1]
  omega

/-- Character count of the line body `render_node` assembles before padding:
opening segment (2 columns in every branch), straight run, header joint, icon,
decorated name, and value suffix. -/
def renderBodyLen (fl : FLState) (ic : IconFamily) (n : JSONNode) : Nat :=
  2
  + (if n.get_level > 2 then 3 * (n.get_level - 2) else 0)
  + (if is_last fl n then 3 else if n.get_level > 1 then 3 else 0)
  + (if n.is_leaf then ic.leaf_icon.length else ic.composite_icon.length)
  + (4 + n.get_name.length)
  + (match n.is_leaf, n.get_value with
     | true, some v => 2 + v.length
     | _, _ => 0)

/-- For every non-root node the emitted line has
`max (renderBodyLen + 1) (grid_width - 2) + 2` characters: the body plus one
space, padded up to `grid_width - 2`, plus the 2-column closing segment. -/
theorem render_node_length (gw : Nat) (fl : FLState) (ic : IconFamily)
    (n : JSONNode) (hroot : n.is_root = false) :
    (render_node gw fl ic n).map String.length =
      some (max (renderBodyLen fl ic n + 1) (gw - 2) + 2) := by
  cases n with
  | composite name lvl i cs =>
      simp only [render_node, renderBodyLen, hroot, JSONNode.is_leaf,
        JSONNode.get_value, JSONNode.get_name, JSONNode.get_level,
        Bool.false_eq_true, if_false, Option.map_some']
      split_ifs <;>
        (simp only [Option.map_some', Option.some.injEq, ljust_length,
          strMul_length, String.length_append,
          show ("──" : String).length = 2 from rfl,
          show ("├─" : String).length = 2 from rfl,
          show ("│ " : String).length = 2 from rfl,
          show ("─┴─" : String).length = 3 from rfl,
          show (" ├─" : String).length = 3 from rfl,
          show (" │ " : String).length = 3 from rfl,
          show ("─┤" : String).length = 2 from rfl,
          show ("* " : String).length = 2 from rfl,
          show (" *" : String).length = 2 from rfl,
          show (" " : String).length = 1 from rfl,
          show ("" : String).length = 0 from rfl]) <;> omega
  | leaf name lvl i v =>
      cases v with
      | none =>
          simp only [render_node, renderBodyLen, hroot, JSONNode.is_leaf,
            JSONNode.get_value, JSONNode.get_name, JSONNode.get_level,
            Bool.false_eq_true, if_false, Option.map_some']
          split_ifs <;>
            (simp only [Option.map_some', Option.some.injEq, ljust_length,
              strMul_length, String.length_append,
              show ("──" : String).length = 2 from rfl,
              show ("├─" : String).length = 2 from rfl,
              show ("│ " : String).length = 2 from rfl,
              show ("─┴─" : String).length = 3 from rfl,
              show (" ├─" : String).length = 3 from rfl,
              show (" │ " : String).length = 3 from rfl,
              show ("─┤" : String).length = 2 from rfl,
              show ("* " : String).length = 2 from rfl,
              show (" *" : String).length = 2 from rfl,
              show (" " : String).length = 1 from rfl,
              show ("" : String).length = 0 from rfl]) <;> omega
      | some s =>
          simp only [render_node, renderBodyLen, hroot, JSONNode.is_leaf,
            JSONNode.get_value, JSONNode.get_name, JSONNode.get_level,
            Bool.false_eq_true, if_false, Option.map_some']
          split_ifs <;>
            (simp only [Option.map_some', Option.some.injEq, ljust_length,
              strMul_length, String.length_append,
              show ("──" : String).length = 2 from rfl,
              show ("├─" : String).length = 2 from rfl,
              show ("│ " : String).length = 2 from rfl,
              show ("─┴─" : String).length = 3 from rfl,
              show (" ├─" : String).length = 3 from rfl,
              show (" │ " : String).length = 3 from rfl,
              show ("─┤" : String).length = 2 from rfl,
              show ("* " : String).length = 2 from rfl,
              show (" *" : String).length = 2 from rfl,
              show (": " : String).length = 2 from rfl,
              show (" " : String).length = 1 from rfl,
              show ("" : String).length = 0 from rfl]) <;> omega

/-- Closed form of the width formula away from the root. -/
theorem specNodeWidth_pos_level (n : JSONNode) (h : 1 ≤ n.get_level) :
    specNodeWidth n = 3 * n.get_level + 7 + n.get_name.length +
      (match n.is_leaf, n.get_value with
       | true, some v => 2 + v.length
       | _, _ => 0) := by
  cases n with
  | composite name lvl i cs =>
      simp only [specNodeWidth, JSONNode.is_leaf, JSONNode.get_value,
        JSONNode.get_name, JSONNode.get_level] at *
      omega
  | leaf name lvl i v =>
      cases v with
      | none =>
          simp only [specNodeWidth, JSONNode.is_leaf, JSONNode.get_value,
            JSONNode.get_name, JSONNode.get_level] at *
          omega
      | some s =>
          simp only [specNodeWidth, JSONNode.is_leaf, JSONNode.get_value,
            JSONNode.get_name, JSONNode.get_level] at *
          omega

/-- For a non-root node with single-column icons the body the renderer
assembles, plus the one filler space and the 2-column closing segment, fits
inside the node's own width contribution — except for a globally-last node at
level 1, whose extra `─┴─` header is not accounted for by the width pass. -/
theorem renderBodyLen_le (fl : FLState) (ic : IconFamily) (n : JSONNode)
    (hlvl : 1 ≤ n.get_level)
    (hci : ic.composite_icon.length = 1) (hli : ic.leaf_icon.length = 1)
    (hexc : ¬(is_last fl n = true ∧ n.get_level = 1)) :
    renderBodyLen fl ic n + 3 ≤ specNodeWidth n := by
  rw [specNodeWidth_pos_level n hlvl]
  rw [renderBodyLen]
  rcases hl : is_last fl n with _ | _ <;>
    simp only [hl, if_true, if_false, Bool.false_eq_true, Bool.true_eq_false,
      hci, hli] <;>
    split_ifs <;>
    simp_all <;>
    omega

theorem foldl_renderStep_eq_filterMap (gw : Nat) (fl : FLState)
    (ic : IconFamily) (l : List JSONNode) :
    ∀ s : List String,
      l.foldl (renderStep gw fl ic) s = s ++ l.filterMap (render_node gw fl ic) := by
  induction l with
  | nil => intro s; simp
  | cons x rest ih =>
      intro s
      rw [List.foldl_cons]
      cases h : render_node gw fl ic x with
      | none => simp only [renderStep, h, ih, List.filterMap_cons]
      | some b =>
          simp only [renderStep, h, ih, List.filterMap_cons,
            List.append_assoc, List.singleton_append]

theorem visitStep_renderVisitor_eq (gw : Nat) (fl : FLState)
    (ic : IconFamily) :
    visitStep (renderVisitor gw fl ic) = renderStep gw fl ic :=
  funext fun s => funext fun n => by cases n <;> rfl

/-- The lines `render()` prints are exactly the per-node lines of the visit
sequence, the root's `none` dropped, in traversal order. -/
theorem starRender_eq_filterMap (t : JSONNode) (ic : IconFamily) :
    starRender t ic = (preorder t).filterMap
      (render_node (runGridWidth t) (runFirstLast t) ic) := by
  rw [starRender, accept_eq_foldl, visitStep_renderVisitor_eq,
    foldl_renderStep_eq_filterMap (runGridWidth t) (runFirstLast t) ic
      (preorder t) []]
  simp

/-!
### Builder shape, independently of the id counter
-/

mutual

/-- A node with all ids zeroed: the shape the builder produces, independent of
the global counter's current value. -/
def eraseIds (n : JSONNode) : JSONNode :=
  match n with
  | .composite name lvl _ cs => .composite name lvl 0 (eraseIdsList cs)
  | .leaf name lvl _ v => .leaf name lvl 0 v
termination_by structural n

def eraseIdsList (ns : List JSONNode) : List JSONNode :=
  match ns with
  | [] => []
  | c :: rest => eraseIds c :: eraseIdsList rest
termination_by structural ns

end

mutual

/-- Up to ids, the built tree does not depend on the counter value. -/
theorem eraseIds_createNode (name : String) (lvl : Nat) (v : JSONValue)
    (c1 c2 : Nat) :
    eraseIds (createNode name lvl v c1).1 = eraseIds (createNode name lvl v c2).1 := by
  cases v with
  | null => simp [createNode, eraseIds]
  | scalar s => simp [createNode, eraseIds]
  | arr xs =>
      simp only [createNode, eraseIds, JSONNode.composite.injEq, true_and]
      exact eraseIdsList_createArr (lvl + 1) 0 xs (c1 + 1) (c2 + 1)
  | obj kvs =>
      simp only [createNode, eraseIds, JSONNode.composite.injEq, true_and]
      exact eraseIdsList_createObj (lvl + 1) kvs (c1 + 1) (c2 + 1)
termination_by structural v

theorem eraseIdsList_createArr (lvl idx : Nat) (xs : List JSONValue)
    (c1 c2 : Nat) :
    eraseIdsList (createArr lvl idx xs c1).1 =
      eraseIdsList (createArr lvl idx xs c2).1 := by
  cases xs with
  | nil => simp [createArr]
  | cons x rest =>
      simp only [createArr, eraseIdsList, List.cons.injEq]
      exact ⟨eraseIds_createNode _ lvl x c1 c2,
        eraseIdsList_createArr lvl (idx + 1) rest _ _⟩
termination_by structural xs

theorem eraseIdsList_createObj (lvl : Nat) (kvs : List (String × JSONValue))
    (c1 c2 : Nat) :
    eraseIdsList (createObj lvl kvs c1).1 =
      eraseIdsList (createObj lvl kvs c2).1 := by
  cases kvs with
  | nil => simp [createObj]
  | cons kv rest =>
      simp only [createObj, eraseIdsList, List.cons.injEq]
      exact ⟨eraseIds_createNode kv.1 lvl kv.2 c1 c2,
        eraseIdsList_createObj lvl rest _ _⟩
termination_by structural kvs

end

/-- The children that `_create_composite_from_list` builds are, up to ids, the
recursive builds of the items in index order, with names `Array[idx]`,
`Array[idx+1]`, …. -/
theorem createArr_children (lvl idx : Nat) (xs : List JSONValue) (ctr : Nat) :
    eraseIdsList (createArr lvl idx xs ctr).1 =
      (xs.enumFrom idx).map
        (fun p => eraseIds (createNode ("Array[" ++ toString p.1 ++ "]") lvl p.2 0).1) := by
  induction xs generalizing idx ctr with
  | nil => simp [createArr, eraseIdsList]
  | cons x rest ih =>
      simp only [createArr, eraseIdsList, List.enumFrom, List.map_cons,
        List.cons.injEq]
      exact ⟨eraseIds_createNode _ lvl x ctr 0, ih (idx + 1) _⟩

/-- The children that `_create_composite_from_dict` builds are, up to ids, the
recursive builds of the values in iteration order, named by their keys. -/
theorem createObj_children (lvl : Nat) (kvs : List (String × JSONValue))
    (ctr : Nat) :
    eraseIdsList (createObj lvl kvs ctr).1 =
      kvs.map (fun kv => eraseIds (createNode kv.1 lvl kv.2 0).1) := by
  induction kvs generalizing ctr with
  | nil => simp [createObj, eraseIdsList]
  | cons kv rest ih =>
      simp only [createObj, eraseIdsList, List.map_cons, List.cons.injEq]
      exact ⟨eraseIds_createNode kv.1 lvl kv.2 ctr 0, ih _⟩

/-- A successful factory run returns the tree `_create('', 0, json_data)`
builds. -/
theorem factoryCreate_ok_eq (v : JSONValue) (ctr : Nat) (t : JSONNode)
    (ht : factoryCreate v ctr = .ok t) : t = (createNode "" 0 v ctr).1 := by
  cases v with
  | null => exact nomatch ht
  | scalar s => exact nomatch ht
  | arr xs =>
      simp only [factoryCreate, factoryInit, Except.map, Except.ok.injEq] at ht
      exact ht.symm
  | obj kvs =>
      simp only [factoryCreate, factoryInit, Except.map, Except.ok.injEq] at ht
      exact ht.symm

/-!
## Claims
-/

/-- C10: on a freshly constructed `FirstLastVisitor` that has not traversed
any tree, `is_first` and `is_last` return false for every node, because both
recorded ids start as `None`, which never equals an integer id. -/
theorem claim_C10_fresh_visitor (n : JSONNode) :
    is_first flInit n = false ∧ is_last flInit n = false := by
  constructor <;> rfl

/-- The width pass computes the floored maximum of the per-node widths. -/
theorem runGridWidth_floored_max (t : JSONNode) :
    runGridWidth t = max 16 (((preorder t).map specNodeWidth).foldr max 0) := by
  rw [runGridWidth_eq_foldl, foldl_max_eq]

/-- C2: after a full traversal, the width pass yields exactly the maximum,
over all nodes of the tree (root included), of
`prefix_length + name_length + 2` — with `prefix_length = max((level-1)*3+2, 0)`
and `name_length = len(name) + 2`, plus `len(value) + 2` for a leaf with a
non-null value, plus 4 — the whole maximum floored at the initial value 16. -/
theorem claim_C2_grid_width (t : JSONNode) :
    runGridWidth t = max 16 (((preorder t).map specNodeWidth).foldr max 0) :=
  runGridWidth_floored_max t

/-- C4: `accept` performs a pre-order depth-first traversal for every tree
and every visitor: the visits are the fold of the pre-order visit sequence, a
node is visited before its descendants (it heads its own visit sequence,
which continues with the children's sequences in stored order). -/
theorem claim_C4_traversal :
    (∀ (σ : Type) (vis : Visitor σ) (t : JSONNode) (s : σ),
      accept vis t s = (preorder t).foldl (visitStep vis) s)
    ∧ (∀ name lvl i cs, preorder (.composite name lvl i cs) =
        .composite name lvl i cs :: preorderList cs)
    ∧ (∀ name lvl i v, preorder (.leaf name lvl i v) = [.leaf name lvl i v])
    ∧ (∀ c rest, preorderList (c :: rest) = preorder c ++ preorderList rest)
    ∧ (∀ t : JSONNode, ∃ rest, preorder t = t :: rest) :=
  ⟨fun _ vis t s => accept_eq_foldl vis t s,
   preorder_composite, preorder_leaf, preorderList_cons, preorder_head⟩

/-- C9: when the parsed top-level value is neither a mapping nor a sequence,
tree construction fails with the invalid-root error kind, and the whole
pipeline fails the same way, before any node is built or line is produced. -/
theorem claim_C9_invalid_root (v : JSONValue) (ctr : Nat) (ic : IconFamily)
    (harr : ∀ xs, v ≠ JSONValue.arr xs) (hobj : ∀ kvs, v ≠ JSONValue.obj kvs) :
    factoryCreate v ctr = .error .invalidRoot ∧
      starPipeline v ic = .error .invalidRoot := by
  cases v with
  | null => exact ⟨rfl, rfl⟩
  | scalar s => exact ⟨rfl, rfl⟩
  | arr xs => exact absurd rfl (harr xs)
  | obj kvs => exact absurd rfl (hobj kvs)

/-- Witness for C9 at the bare scalar document `"hello"`. -/
theorem claim_C9_witness :
    factoryCreate (.scalar "hello") 0 = .error .invalidRoot ∧
      starPipeline (.scalar "hello") defaultIcons = .error .invalidRoot :=
  claim_C9_invalid_root (.scalar "hello") 0 defaultIcons
    (fun _ h => nomatch h) (fun _ h => nomatch h)

/-- C7: in a tree built by a single factory invocation, node ids are pairwise
distinct, and listing the nodes in pre-order traversal order lists the ids in
strictly increasing order — construction order coincides with traversal
order. -/
theorem claim_C7_ids (v : JSONValue) (ctr : Nat) (t : JSONNode)
    (ht : factoryCreate v ctr = .ok t) :
    ((preorder t).map JSONNode.get_id).Pairwise (· < ·) ∧
      ((preorder t).map JSONNode.get_id).Nodup := by
  rw [factoryCreate_ok_eq v ctr t ht]
  refine ⟨createNode_ids_pairwise "" 0 v ctr, ?_⟩
  exact (createNode_ids_pairwise "" 0 v ctr).imp Nat.ne_of_lt

/-- Witness for C7 on the document `{"a": 1, "b": [2, null]}`. -/
theorem claim_C7_witness :
    ((preorder (createNode "" 0
        (.obj [("a", .scalar "1"), ("b", .arr [.scalar "2", .null])]) 0).1).map
      JSONNode.get_id).Pairwise (· < ·) ∧
    ((preorder (createNode "" 0
        (.obj [("a", .scalar "1"), ("b", .arr [.scalar "2", .null])]) 0).1).map
      JSONNode.get_id).Nodup :=
  claim_C7_ids (.obj [("a", .scalar "1"), ("b", .arr [.scalar "2", .null])])
    0 _ rfl

/-- C6: in a tree built by the factory from a valid document, the root has
level 0, every child's level is its parent's level plus one, and exactly one
node of the tree has level 0. -/
theorem claim_C6_levels (v : JSONValue) (ctr : Nat) (t : JSONNode)
    (ht : factoryCreate v ctr = .ok t) :
    t.get_level = 0
    ∧ (∀ m ∈ preorder t, ∀ c ∈ m.get_children, c.get_level = m.get_level + 1)
    ∧ (preorder t).countP (fun n => n.get_level == 0) = 1 := by
  have hte := factoryCreate_ok_eq v ctr t ht
  have hok := createNode_levelsOK "" 0 v ctr
  refine ⟨by rw [hte]; exact hok.1, ?_, ?_⟩
  · rw [hte]
    exact levelsOK_children _ hok.2
  · subst hte
    cases v with
    | null => exact nomatch ht
    | scalar s => exact nomatch ht
    | arr xs =>
        rw [show (createNode "" 0 (.arr xs) ctr).1
            = .composite "" 0 ctr (createArr 1 0 xs (ctr + 1)).1 from rfl]
        rw [preorder_composite, List.countP_cons]
        have hz : (preorderList (createArr 1 0 xs (ctr + 1)).1).countP
            (fun n => n.get_level == 0) = 0 := by
          rw [List.countP_eq_zero]
          intro m hm
          have := levelsOKList_preorder_ge 1 _ (createArr_levelsOK 1 0 xs (ctr + 1)) m hm
          simp only [beq_iff_eq]
          omega
        rw [hz]
        simp [JSONNode.get_level]
    | obj kvs =>
        rw [show (createNode "" 0 (.obj kvs) ctr).1
            = .composite "" 0 ctr (createObj 1 kvs (ctr + 1)).1 from rfl]
        rw [preorder_composite, List.countP_cons]
        have hz : (preorderList (createObj 1 kvs (ctr + 1)).1).countP
            (fun n => n.get_level == 0) = 0 := by
          rw [List.countP_eq_zero]
          intro m hm
          have := levelsOKList_preorder_ge 1 _ (createObj_levelsOK 1 kvs (ctr + 1)) m hm
          simp only [beq_iff_eq]
          omega
        rw [hz]
        simp [JSONNode.get_level]

/-- Witness for C6 on the document `{"a": 1, "b": [2, null]}`. -/
theorem claim_C6_witness :
    (createNode "" 0
        (.obj [("a", .scalar "1"), ("b", .arr [.scalar "2", .null])]) 0).1.get_level = 0
    ∧ (∀ m ∈ preorder (createNode "" 0
        (.obj [("a", .scalar "1"), ("b", .arr [.scalar "2", .null])]) 0).1,
        ∀ c ∈ m.get_children, c.get_level = m.get_level + 1)
    ∧ (preorder (createNode "" 0
        (.obj [("a", .scalar "1"), ("b", .arr [.scalar "2", .null])]) 0).1).countP
        (fun n => n.get_level == 0) = 1 :=
  claim_C6_levels (.obj [("a", .scalar "1"), ("b", .arr [.scalar "2", .null])])
    0 _ rfl

/-- `is_first` after the pass compares against the root's id. -/
theorem is_first_runFirstLast (t n : JSONNode) :
    is_first (runFirstLast t) n = (n.get_id == t.get_id) := by
  rw [is_first, runFirstLast_first_id]
  rfl

/-- Counting nodes by id equals counting the id in the mapped id list. -/
theorem countP_id_eq_count (l : List JSONNode) (a : Nat) :
    l.countP (fun n => n.get_id == a) = (l.map JSONNode.get_id).count a := by
  rw [List.count_eq_countP, List.countP_map]
  rfl

/-- C3: after the first/last pass over a factory-built tree, `is_first` holds
for exactly one node — the root — and `is_last` for exactly one node — the
terminal node of the pre-order traversal; consequently `is_first` is false on
every non-root node, so the renderer's globally-first branches never trigger
on a node it actually emits a line for. -/
theorem claim_C3_first_last (v : JSONValue) (ctr : Nat) (t : JSONNode)
    (ht : factoryCreate v ctr = .ok t) :
    is_first (runFirstLast t) t = true
    ∧ (preorder t).countP (fun n => is_first (runFirstLast t) n) = 1
    ∧ (∃ m, (preorder t).getLast? = some m ∧ is_last (runFirstLast t) m = true)
    ∧ (preorder t).countP (fun n => is_last (runFirstLast t) n) = 1
    ∧ (∀ n ∈ preorder t, n.is_root = false → is_first (runFirstLast t) n = false) := by
  have hte := factoryCreate_ok_eq v ctr t ht
  have hpair : ((preorder t).map JSONNode.get_id).Pairwise (· < ·) := by
    rw [hte]; exact createNode_ids_pairwise "" 0 v ctr
  have hnodup : ((preorder t).map JSONNode.get_id).Nodup :=
    hpair.imp Nat.ne_of_lt
  obtain ⟨rest, hrest⟩ := preorder_head t
  have htmem : t ∈ preorder t := by rw [hrest]; exact List.mem_cons_self t rest
  have hne : preorder t ≠ [] := by rw [hrest]; exact List.cons_ne_nil t rest
  obtain ⟨m, hm⟩ := Option.ne_none_iff_exists'.mp
    (mt List.getLast?_eq_none_iff.mp hne)
  have hmmem : m ∈ preorder t := by
    obtain ⟨ys, hys⟩ := List.getLast?_eq_some_iff.mp hm
    rw [hys]
    exact List.mem_append_right _ (List.mem_singleton_self m)
  have hlast : (runFirstLast t).last_id = some m.get_id := by
    rw [runFirstLast_last_id, hm]
  have his_last : ∀ n, is_last (runFirstLast t) n = (n.get_id == m.get_id) := by
    intro n
    rw [is_last, hlast]
    rfl
  refine ⟨?_, ?_, ⟨m, hm, ?_⟩, ?_, ?_⟩
  · rw [is_first_runFirstLast]; exact beq_self_eq_true _
  · have : (preorder t).countP (fun n => is_first (runFirstLast t) n)
        = (preorder t).countP (fun n => n.get_id == t.get_id) := by
      apply List.countP_congr
      intro n _
      rw [is_first_runFirstLast]
    rw [this, countP_id_eq_count]
    exact List.count_eq_one_of_mem hnodup (List.mem_map_of_mem _ htmem)
  · rw [his_last]; exact beq_self_eq_true _
  · have : (preorder t).countP (fun n => is_last (runFirstLast t) n)
        = (preorder t).countP (fun n => n.get_id == m.get_id) := by
      apply List.countP_congr
      intro n _
      rw [his_last]
    rw [this, countP_id_eq_count]
    exact List.count_eq_one_of_mem hnodup (List.mem_map_of_mem _ hmmem)
  · intro n hn hroot
    rw [is_first_runFirstLast]
    by_contra hcon
    have hid : n.get_id = t.get_id := by
      have := Bool.not_eq_false _ |>.mp hcon
      exact beq_iff_eq.mp this
    have hnt : n = t := List.inj_on_of_nodup_map hnodup hn htmem hid
    have htl : t.get_level = 0 := by
      rw [hte]; exact (createNode_levelsOK "" 0 v ctr).1
    rw [hnt, JSONNode.is_root, htl] at hroot
    exact absurd hroot (by simp)

/-- Witness for C3 on the document `{"a": 1, "b": [2, null]}`. -/
theorem claim_C3_witness :
    is_first
      (runFirstLast (createNode "" 0
        (.obj [("a", .scalar "1"), ("b", .arr [.scalar "2", .null])]) 0).1)
      (createNode "" 0
        (.obj [("a", .scalar "1"), ("b", .arr [.scalar "2", .null])]) 0).1 = true :=
  (claim_C3_first_last
    (.obj [("a", .scalar "1"), ("b", .arr [.scalar "2", .null])]) 0 _ rfl).1

/-- C8: the width analysis is monotonic — the grid width of any tree is at
least 16; replacing a tree by one whose node contributions dominate (in
particular, adding nodes) never decreases the result; and a node's own
contribution grows with its name length and, for a leaf with a non-null
value, with its value length. -/
theorem claim_C8_monotonic :
    (∀ t : JSONNode, 16 ≤ runGridWidth t)
    ∧ (∀ t1 t2 : JSONNode,
        (∀ n ∈ preorder t1, ∃ m ∈ preorder t2, specNodeWidth n ≤ specNodeWidth m) →
        runGridWidth t1 ≤ runGridWidth t2)
    ∧ (∀ (name1 name2 : String) (lvl i1 i2 : Nat)
        (cs1 cs2 : List JSONNode), name1.length ≤ name2.length →
        specNodeWidth (.composite name1 lvl i1 cs1) ≤
          specNodeWidth (.composite name2 lvl i2 cs2))
    ∧ (∀ (name1 name2 : String) (lvl i1 i2 : Nat) (v1 v2 : String),
        name1.length ≤ name2.length → v1.length ≤ v2.length →
        specNodeWidth (.leaf name1 lvl i1 (some v1)) ≤
          specNodeWidth (.leaf name2 lvl i2 (some v2)))
    ∧ (∀ (name1 name2 : String) (lvl i1 i2 : Nat),
        name1.length ≤ name2.length →
        specNodeWidth (.leaf name1 lvl i1 none) ≤
          specNodeWidth (.leaf name2 lvl i2 none)) := by
  refine ⟨runGridWidth_ge_16, ?_, ?_, ?_, ?_⟩
  · intro t1 t2 hdom
    rw [runGridWidth_floored_max t1]
    have h16 := runGridWidth_ge_16 t2
    have hb : ((preorder t1).map specNodeWidth).foldr max 0 ≤ runGridWidth t2 := by
      apply foldr_max_le
      intro x hx
      obtain ⟨n, hn, hxn⟩ := List.mem_map.mp hx
      obtain ⟨m, hm, hnm⟩ := hdom n hn
      calc x = specNodeWidth n := hxn.symm
        _ ≤ specNodeWidth m := hnm
        _ ≤ runGridWidth t2 := runGridWidth_ge_node t2 m hm
    omega
  · intro name1 name2 lvl i1 i2 cs1 cs2 h
    simp only [specNodeWidth, JSONNode.is_leaf, JSONNode.get_value,
      JSONNode.get_name, JSONNode.get_level]
    omega
  · intro name1 name2 lvl i1 i2 v1 v2 h1 h2
    simp only [specNodeWidth, JSONNode.is_leaf, JSONNode.get_value,
      JSONNode.get_name, JSONNode.get_level]
    omega
  · intro name1 name2 lvl i1 i2 h
    simp only [specNodeWidth, JSONNode.is_leaf, JSONNode.get_value,
      JSONNode.get_name, JSONNode.get_level]
    omega

/-- Witness for C8: growing the single key of `{"a": null}` to `"ab"` does not
decrease the computed width, and the 16 floor holds on that tree. -/
theorem claim_C8_witness :
    16 ≤ runGridWidth (createNode "" 0 (.obj [("a", .null)]) 0).1
    ∧ runGridWidth (createNode "" 0 (.obj [("a", .null)]) 0).1 ≤
        runGridWidth (createNode "" 0 (.obj [("ab", .null)]) 0).1 := by
  constructor
  · exact claim_C8_monotonic.1 (createNode "" 0 (.obj [("a", .null)]) 0).1
  · apply claim_C8_monotonic.2.1
    intro n hn
    cases hn with
    | head rest =>
        exact ⟨(createNode "" 0 (.obj [("ab", .null)]) 0).1,
          List.mem_cons_self _ _, by decide⟩
    | tail b hb =>
        cases hb with
        | head rest =>
            refine ⟨.leaf "ab" 1 1 none, ?_, by decide⟩
            exact List.Mem.tail _ (List.Mem.head _)
        | tail c hc => exact nomatch hc

/-- C5: the builder maps a sequence to a composite whose children are, up to
ids, the recursive builds of the items in index order with names `Array[0]`,
`Array[1]`, … at one level deeper; a mapping to a composite whose children
are the recursive builds of the values in iteration order with the keys as
names at one level deeper; a scalar to a leaf holding the textual form; and
null to a leaf holding the null marker. -/
theorem claim_C5_builder :
    (∀ (name : String) (lvl ctr : Nat) (s : String),
      createNode name lvl (.scalar s) ctr = (.leaf name lvl ctr (some s), ctr + 1))
    ∧ (∀ (name : String) (lvl ctr : Nat),
      createNode name lvl .null ctr = (.leaf name lvl ctr none, ctr + 1))
    ∧ (∀ (name : String) (lvl ctr : Nat) (xs : List JSONValue),
      ∃ cs ctr2,
        createNode name lvl (.arr xs) ctr = (.composite name lvl ctr cs, ctr2)
        ∧ eraseIdsList cs = xs.enum.map
            (fun p => eraseIds
              (createNode ("Array[" ++ toString p.1 ++ "]") (lvl + 1) p.2 0).1))
    ∧ (∀ (name : String) (lvl ctr : Nat) (kvs : List (String × JSONValue)),
      ∃ cs ctr2,
        createNode name lvl (.obj kvs) ctr = (.composite name lvl ctr cs, ctr2)
        ∧ eraseIdsList cs = kvs.map
            (fun kv => eraseIds (createNode kv.1 (lvl + 1) kv.2 0).1)) := by
  refine ⟨fun name lvl ctr s => rfl, fun name lvl ctr => rfl, ?_, ?_⟩
  · intro name lvl ctr xs
    refine ⟨(createArr (lvl + 1) 0 xs (ctr + 1)).1,
      (createArr (lvl + 1) 0 xs (ctr + 1)).2, rfl, ?_⟩
    rw [createArr_children]
    rfl
  · intro name lvl ctr kvs
    exact ⟨(createObj (lvl + 1) kvs (ctr + 1)).1,
      (createObj (lvl + 1) kvs (ctr + 1)).2, rfl,
      createObj_children (lvl + 1) kvs (ctr + 1)⟩

/-- C1 fails as stated: on the document `{"abcdef": 1}` the width pass
computes `grid_width = 19`, but the single line the renderer emits — for the
globally-last node, which sits at level 1 — has 22 printable columns: its
`─┴─` header is not accounted for by the width analysis and the padding
cannot shrink a line. -/
theorem claim_C1_counterexample :
    runGridWidth (createNode "" 0 (.obj [("abcdef", .scalar "1")]) 0).1 = 19
    ∧ (starRender (createNode "" 0 (.obj [("abcdef", .scalar "1")]) 0).1
        defaultIcons).map String.length = [22]
    ∧ (22 : Nat) ≠ 19 :=
  ⟨by decide, by decide, by decide⟩

/-- C1 (amended): for a factory-built tree rendered with single-column icon
glyphs, every output line the renderer emits — one per non-root node, in
traversal order — has exactly `grid_width` printable columns, except possibly
the line of the globally-last node when that node sits at level 1. -/
theorem claim_C1_line_width (v : JSONValue) (ctr : Nat) (t : JSONNode)
    (_ht : factoryCreate v ctr = .ok t)
    (ic : IconFamily) (hci : ic.composite_icon.length = 1)
    (hli : ic.leaf_icon.length = 1)
    (n : JSONNode) (hn : n ∈ preorder t) (hroot : n.is_root = false)
    (hexc : ¬(is_last (runFirstLast t) n = true ∧ n.get_level = 1)) :
    (render_node (runGridWidth t) (runFirstLast t) ic n).map String.length
      = some (runGridWidth t)
    ∧ starRender t ic = (preorder t).filterMap
        (render_node (runGridWidth t) (runFirstLast t) ic) := by
  have hlvl : 1 ≤ n.get_level := by
    rw [JSONNode.is_root] at hroot
    have := beq_eq_false_iff_ne.mp hroot
    omega
  have hb := renderBodyLen_le (runFirstLast t) ic n hlvl hci hli hexc
  have hw := runGridWidth_ge_node t n hn
  have h16 := runGridWidth_ge_16 t
  have hr := render_node_length (runGridWidth t) (runFirstLast t) ic n hroot
  refine ⟨?_, starRender_eq_filterMap t ic⟩
  rw [hr]
  congr 1
  omega

/-- Witness for the amended C1 on `{"a": 1, "b": null}`: the line of the
level-1, non-last leaf `a` has exactly the computed grid width. -/
theorem claim_C1_witness :
    (render_node
        (runGridWidth (createNode "" 0 (.obj [("a", .scalar "1"), ("b", .null)]) 0).1)
        (runFirstLast (createNode "" 0 (.obj [("a", .scalar "1"), ("b", .null)]) 0).1)
        defaultIcons (.leaf "a" 1 1 (some "1"))).map String.length
      = some (runGridWidth
          (createNode "" 0 (.obj [("a", .scalar "1"), ("b", .null)]) 0).1) :=
  (claim_C1_line_width (.obj [("a", .scalar "1"), ("b", .null)]) 0 _ rfl
    defaultIcons rfl rfl (.leaf "a" 1 1 (some "1"))
    (List.Mem.tail _ (List.Mem.head _)) rfl (by decide)).1

end FJE
